import Mathlib

/-!
Verification of the submission pipeline of the OCRvKing exam-grading app.

The development shallowly embeds the TypeScript sources:
* `src/types.ts` — the data model (`StudentSubmission`, `GradingResult`, `ScoreItem`);
* `src/services/geminiService.ts` — `gradeSubmission`, i.e. the defensive
  normalization of the external model's response; the external call itself is
  modelled as an environment value (`GradeEnv`) describing its outcome;
* `src/App.tsx` — `handleFileSelect`'s bulk segmentation loop, `startGrading`'s
  sequential grading loop (published queue snapshots are collected as a trace),
  the remaining handlers, and the appended `convertPdfToImages`;
* `src/unnamed/part_000` (ResultsTable) — `getExportData` and the clipboard copy.

Numeric JSON fields are modelled as `Int` (the claims do not involve
floating-point behaviour).  JavaScript files are represented by their names
(`String`); image blobs are opaque.
-/

/-- `ScoreItem` from src/types.ts: one graded question. -/
structure ScoreItem where
  q_num : Int
  score : Int
  student_answer : String
  reason : String
deriving DecidableEq, Repr

/-- A JSON value as it can appear in a field of the parsed model response.
`rarr` carries well-typed score items (the response schema declares the array's
element shape and `gradeSubmission` never inspects the items, only
`Array.isArray` at the top of the field). -/
inductive RawVal where
  | rstr (s : String)
  | rnum (n : Int)
  | rarr (items : List ScoreItem)
  | rnull
  | rbool (b : Bool)
deriving DecidableEq, Repr

/-- The object produced by `JSON.parse(response.text)` in `gradeSubmission`,
field by field; `none` means the field is absent (JS `undefined`).
`feedback` is modelled as string-or-absent: the response schema declares it as
STRING and every downstream use (`String.replace` in the export code) requires
a string; `rawResult.feedback || sentinel` is JS truthiness, which on strings
is exactly "non-empty". -/
structure RawResponse where
  student_name : Option RawVal
  student_class : Option RawVal
  total_score : Option RawVal
  feedback : Option String
  scores : Option RawVal
deriving DecidableEq, Repr

/-- The top-level value produced by a successful `JSON.parse`.  A top-level
`null` is distinguished because `null.student_name` throws a `TypeError`
(caught by the surrounding `catch (parseError)`), while property access on any
other value — objects, but also numbers, strings, booleans — yields the field
(or `undefined`), so those all behave like a `RawResponse`. -/
inductive ParsedJson where
  | jnull
  | jval (raw : RawResponse)
deriving DecidableEq, Repr

/-- A JavaScript thrown value as seen by a `catch`: either an `Error` carrying
a message, or some non-`Error` value. -/
inductive Thrown where
  | err (msg : String)
  | nonError
deriving DecidableEq, Repr

/-- Environment of one `gradeSubmission` call: everything outside the code's
control.  `sdkFailure` covers any rejection before a response text is examined
(`fileToBase64` failures, transport/network errors from the SDK);
`emptyText` is a response whose `.text` is falsy (absent or `""`);
`malformed` is a response text on which `JSON.parse` throws;
`parsed v` is a response text that `JSON.parse` turns into `v`. -/
inductive GradeEnv where
  | sdkFailure (t : Thrown)
  | emptyText
  | malformed
  | parsed (v : ParsedJson)
deriving DecidableEq, Repr

/-- `GradingResult` from src/types.ts as produced by `gradeSubmission`'s
normalization (which always sets every field, including `student_class` and
`hasOCRIssues`). -/
structure GradingResult where
  student_name : String
  student_class : String
  scores : List ScoreItem
  total_score : Int
  feedback : String
  hasOCRIssues : Bool
deriving DecidableEq, Repr

/-- Sentinel used when the student name is missing/unreadable. -/
def nameSentinel : String := "이름 없음"

/-- Sentinel used when the class information is missing/unreadable. -/
def classSentinel : String := "반 정보 없음"

/-- Sentinel used when the response has no feedback. -/
def feedbackSentinel : String := "피드백이 없습니다."

/-- Message of the error thrown when the response text cannot be parsed
(or a top-level `null` makes the field accesses throw). -/
def parseFailMsg : String := "Failed to parse grading results from model response."

/-- Message of the error thrown on an empty model response. -/
def emptyRespMsg : String := "Empty response from model"

/-- JavaScript truthiness of an (optional) field value: `undefined`, `null`,
`""`, `0` and `false` are falsy.  (`NaN`, the remaining falsy value, has no
counterpart in the integer model.) -/
def jsTruthy : Option RawVal → Bool
  | none => false
  | some (.rstr s) => !(s == "")
  | some (.rnum n) => !(n == 0)
  | some (.rarr _) => true
  | some .rnull => false
  | some (.rbool b) => b

/-- `typeof v === 'string'`. -/
def isStringVal : Option RawVal → Bool
  | some (.rstr _) => true
  | _ => false

/-- `typeof v === 'number'`. -/
def isNumberVal : Option RawVal → Bool
  | some (.rnum _) => true
  | _ => false

/-- `Array.isArray(v)`. -/
def isArrayVal : Option RawVal → Bool
  | some (.rarr _) => true
  | _ => false

/-- The string content of a field known to be a string (the code only reads it
after the `typeof ... === 'string'` check has passed). -/
def strValOf : Option RawVal → String
  | some (.rstr s) => s
  | _ => ""

/-- The robustness checks of `gradeSubmission`
(src/services/geminiService.ts lines 127–153), executed after a successful
parse.  The code reassigns `student_name` / `student_class` and a
`hasOCRIssues` flag through two `if` statements; here each check is a `let`.
The original condition is
`!v || typeof v !== 'string' || v.trim() === ''`. -/
def normalizeResponse (raw : RawResponse) : GradingResult :=
  let nameBad := !jsTruthy raw.student_name || !isStringVal raw.student_name
      || (strValOf raw.student_name).trim == ""
  let classBad := !jsTruthy raw.student_class || !isStringVal raw.student_class
      || (strValOf raw.student_class).trim == ""
  { student_name := if nameBad then nameSentinel else strValOf raw.student_name
    student_class := if classBad then classSentinel else strValOf raw.student_class
    total_score := match raw.total_score with
      | some (.rnum n) => n
      | _ => 0
    feedback := match raw.feedback with
      | some s => if s == "" then feedbackSentinel else s
      | none => feedbackSentinel
    scores := match raw.scores with
      | some (.rarr xs) => xs
      | _ => []
    hasOCRIssues := nameBad || classBad }

/-- `gradeSubmission` (src/services/geminiService.ts lines 27–166) as a
function of its call environment.  The outer `try/catch` rethrows, so thrown
values reach the caller unchanged. -/
def gradeSubmissionM : GradeEnv → Except Thrown GradingResult
  | .sdkFailure t => .error t
  | .emptyText => .error (.err emptyRespMsg)
  | .malformed => .error (.err parseFailMsg)
  | .parsed .jnull => .error (.err parseFailMsg)
  | .parsed (.jval raw) => .ok (normalizeResponse raw)

/-- Projection onto the success case (used to state decidable hypotheses). -/
def okOf : Except Thrown GradingResult → Option GradingResult
  | .ok r => some r
  | .error _ => none

/-- Projection onto the failure case. -/
def errOf : Except Thrown GradingResult → Option Thrown
  | .error t => some t
  | .ok _ => none

/-- A field that is missing, empty or whitespace-only, or not a string — the
input class named by the data-quality claims about name/class normalization. -/
def missingEmptyOrNonString : Option RawVal → Bool
  | none => true
  | some (.rstr s) => s.trim == ""
  | some _ => true

/-- Did `gradeSubmission`'s environment deliver a response at all (as opposed
to the SDK call itself rejecting)? -/
def responseReceived : GradeEnv → Bool
  | .sdkFailure _ => false
  | _ => true

/-- Per-page environment of `convertPdfToImages` (src/App.tsx lines 553–595):
what the browser does for one page.
`renderFailure` covers `getPage`/`render` promise rejections (they propagate
out of the function, there is no `try` inside);
`noContext` is `canvas.getContext('2d')` returning `null`
(the code throws "Could not create canvas context");
`blobNull` is `canvas.toBlob` delivering `null`;
`rendered` is a successful page. -/
inductive PageOutcome where
  | renderFailure (t : Thrown)
  | noContext
  | blobNull
  | rendered
deriving DecidableEq, Repr

/-- Drop the first occurrence of `pat` from a character list (scanning left to
right), the character-level core of JS `String.replace` with a string pattern
and an empty replacement. -/
def dropFirstOccAux (pat : List Char) : List Char → List Char
  | [] => []
  | c :: cs =>
    if (c :: cs).take pat.length = pat then (c :: cs).drop pat.length
    else c :: dropFirstOccAux pat cs

/-- JS `String.replace` with a *string* pattern replaces only the first
occurrence; `name.replace('.pdf', '')` hence drops the first `".pdf"`. -/
def jsReplaceFirst (s pat : String) : String :=
  ⟨dropFirstOccAux pat.data s.data⟩

/-- The loop body accumulation of `convertPdfToImages`: pages are processed in
order 1..n; a thrown error aborts the whole conversion, a `null` blob merely
skips the `imageFiles.push`. -/
def convertPagesLoop (base : String) : List PageOutcome → Nat → Except Thrown (List String)
  | [], _ => .ok []
  | po :: rest, i =>
    match po with
    | .renderFailure t => .error t
    | .noContext => .error (.err "Could not create canvas context")
    | .blobNull => convertPagesLoop base rest (i + 1)
    | .rendered =>
      match convertPagesLoop base rest (i + 1) with
      | .ok files => .ok ((base ++ "_page_" ++ toString i ++ ".jpg") :: files)
      | .error t => .error t

/-- `convertPdfToImages` over a PDF whose name is `pdfName` and whose pages
behave as `pages` (in page order, starting at page 1). -/
def convertPdfToImages (pdfName : String) (pages : List PageOutcome) : Except Thrown (List String) :=
  convertPagesLoop (jsReplaceFirst pdfName ".pdf") pages 1

/-- `StudentSubmission.status` from src/types.ts. -/
inductive SubStatus where
  | pending
  | processing
  | completed
  | error
deriving DecidableEq, Repr

/-- `StudentSubmission` from src/types.ts (files are represented by name). -/
structure Submission where
  id : String
  files : List String
  status : SubStatus
  result : Option GradingResult := none
  errorMsg : Option String := none
deriving DecidableEq, Repr

/-- The bulk-segmentation loop of `handleFileSelect` (src/App.tsx lines 84–93):
`for (let i = 0; i < images.length; i += pagesPerStudent)` slicing
`images.slice(i, i + pagesPerStudent)` and pushing a `pending` record when the
slice is non-empty.  The loop is embedded with explicit fuel (one unit per
iteration); with `pagesPerStudent ≥ 1` the index strictly increases, so
`images.length` units suffice — see `segmentLoopAux_eq_chunkRecords`.
`mkId i` stands for the `uuidv4()` drawn at index `i`. -/
def segmentLoopAux (images : List String) (p : Nat) (mkId : Nat → String) :
    Nat → Nat → List Submission
  | 0, _ => []
  | fuel + 1, i =>
    if i < images.length then
      let studentImages := (images.drop i).take p
      if studentImages.length > 0 then
        { id := mkId i, files := studentImages, status := .pending }
          :: segmentLoopAux images p mkId fuel (i + p)
      else segmentLoopAux images p mkId fuel (i + p)
    else []

/-- The records produced from a bulk PDF's page images. -/
def segmentSubmissions (images : List String) (p : Nat) (mkId : Nat → String) :
    List Submission :=
  segmentLoopAux images p mkId images.length 0

/-- Structural restatement of the segmentation loop used in proofs: at index
`i` the loop only ever looks at `images.drop i`.  Recursion is on the length
of the remaining list, which `drop p` strictly decreases while it is
non-empty and `0 < p`. -/
def chunkRecords (p : Nat) (hp : 0 < p) (mkId : Nat → String) :
    List String → Nat → List Submission :=
  fun l i =>
    if hl : l = [] then []
    else
      { id := mkId i, files := l.take p, status := .pending }
        :: chunkRecords p hp mkId (l.drop p) (i + p)
termination_by l _ => l.length
decreasing_by
  simp only [List.length_drop]
  exact Nat.sub_lt (List.length_pos.mpr hl) hp

/-- `AppStep` from src/types.ts. -/
inductive AppStep where
  | setup
  | uploadStudents
  | grading
deriving DecidableEq, Repr

/-- The state held by the `App` component (src/App.tsx lines 29–45), limited
to the fields the pipeline reads or writes.  Transient UI state (toast text,
PDF spinner, dev-settings visibility, model selection) does not influence the
pipeline and is omitted. -/
structure AppState where
  currentStep : AppStep
  referenceFile : Option String
  submissions : List Submission
  isGrading : Bool
  stagedFiles : List String
  isBulkMode : Bool
  pagesPerStudent : Nat
deriving DecidableEq, Repr

/-- The initial `useState` values. -/
def initialState : AppState :=
  { currentStep := .setup
    referenceFile := none
    submissions := []
    isGrading := false
    stagedFiles := []
    isBulkMode := false
    pagesPerStudent := 1 }

/-- `handleReferenceSelect`: store the first selected file. -/
def selectReference (s : AppState) (f : String) : AppState :=
  { s with referenceFile := some f }

/-- The sidebar's remove-reference button (src/App.tsx lines 230–233). -/
def removeReference (s : AppState) : AppState :=
  { s with referenceFile := none, currentStep := .setup }

/-- The "next" button of the setup step (only rendered when a reference file
is present — the guard lives in the `Reach` relation). -/
def gotoUpload (s : AppState) : AppState :=
  { s with currentStep := .uploadStudents }

/-- `handleFileSelect`, standard (staging) path. -/
def stageFiles (s : AppState) (fs : List String) : AppState :=
  { s with stagedFiles := s.stagedFiles ++ fs }

/-- `addStudentToQueue` (src/App.tsx lines 111–122). -/
def addStudentToQueue (s : AppState) (newId : String) : AppState :=
  if s.stagedFiles.isEmpty then s
  else
    { s with
      submissions := s.submissions
        ++ [{ id := newId, files := s.stagedFiles, status := .pending }]
      stagedFiles := [] }

/-- `handleFileSelect`, bulk path, in the case where `convertPdfToImages`
succeeded with `images` (on failure the submissions are untouched). -/
def bulkAddSubmissions (s : AppState) (images : List String) (mkId : Nat → String) :
    AppState :=
  { s with submissions := s.submissions ++ segmentSubmissions images s.pagesPerStudent mkId }

/-- `removeSubmission` (src/App.tsx lines 128–130). -/
def removeSubmissionById (s : AppState) (i : String) : AppState :=
  { s with submissions := s.submissions.filter (fun sub => !(sub.id == i)) }

/-- `saveEditing` of ResultsTable (src/unnamed/part_000 lines 37–49) followed
by `updateSubmission`'s merge: replace the found record's result's name/class.
A record without a result, or an unknown id, is a no-op. -/
def saveEdit (s : AppState) (i editName editClass : String) : AppState :=
  match s.submissions.find? (fun sub => sub.id == i) with
  | none => s
  | some sub =>
    match sub.result with
    | none => s
    | some r =>
      { s with submissions := s.submissions.map (fun su =>
          if su.id == i then
            { su with result := some { r with student_name := editName, student_class := editClass } }
          else su) }

/-- `setPagesPerStudent` via the direct-input field
(`Math.max(1, parseInt(...) || 1)`, src/App.tsx line 397). -/
def setPages (s : AppState) (m : Nat) : AppState :=
  { s with pagesPerStudent := max 1 m }

/-- The reset button after a finished run (src/App.tsx lines 522–528). -/
def resetRun (s : AppState) : AppState :=
  { s with submissions := [], currentStep := .uploadStudents
           isBulkMode := false, pagesPerStudent := 1 }

/-- `newSubmissions[i] = {...newSubmissions[i], status:'completed', result}` /
`{...status:'error', errorMsg}` (src/App.tsx lines 162–172).  The spread keeps
every other field of the record, including, notably, a stale `result` or
`errorMsg` from an earlier run. -/
def gradeRecord (rec : Submission) (out : Except Thrown GradingResult) : Submission :=
  match out with
  | .ok result => { rec with status := .completed, result := some result }
  | .error e =>
    { rec with status := .error
               errorMsg := some (match e with | .err m => m | .nonError => "Unknown error") }

/-- The `for` loop of `startGrading` (src/App.tsx lines 150–175) over the
array `newSubmissions`, collecting every `setSubmissions([...newSubmissions])`
snapshot in order.  `genv i` is the environment of the `i`-th
`gradeSubmission` call.  The loop is embedded with explicit fuel; the index
increases by one per iteration, so `arr.length` units run it to completion. -/
def gradingLoopAux (genv : Nat → GradeEnv) :
    Nat → List Submission → Nat → List Submission × List (List Submission)
  | 0, arr, _ => (arr, [])
  | fuel + 1, arr, i =>
    if h : i < arr.length then
      let procRec := { arr.get ⟨i, h⟩ with status := SubStatus.processing }
      let processing := arr.set i procRec
      let settledRec := gradeRecord procRec (gradeSubmissionM (genv i))
      let settled := processing.set i settledRec
      let next := gradingLoopAux genv fuel settled (i + 1)
      (next.1, processing :: settled :: next.2)
    else (arr, [])

/-- The grading loop started at index 0: final array and snapshot trace. -/
def gradingLoop (genv : Nat → GradeEnv) (arr : List Submission) :
    List Submission × List (List Submission) :=
  gradingLoopAux genv arr.length arr 0

/-- `startGrading` (src/App.tsx lines 140–178): guard, then the loop; the
second component is the ordered list of published queue snapshots. -/
def startGrading (s : AppState) (genv : Nat → GradeEnv) :
    AppState × List (List Submission) :=
  if s.referenceFile.isNone || s.submissions.isEmpty then (s, [])
  else
    let r := gradingLoop genv s.submissions
    ({ s with currentStep := .grading, isGrading := false, submissions := r.1 }, r.2)

/-- The app state holding a mid-run queue snapshot (published while
`isGrading` is true and the step is `GRADING`). -/
def midState (s : AppState) (snap : List Submission) : AppState :=
  { s with isGrading := true, currentStep := .grading, submissions := snap }

/-- Every state the app passes through during `startGrading`: the state right
after `setIsGrading(true)`/`setCurrentStep(GRADING)`, one state per published
snapshot, and the final state after `setIsGrading(false)`.  Empty when the
guard returns early. -/
def startGradingStates (s : AppState) (genv : Nat → GradeEnv) : List AppState :=
  if s.referenceFile.isNone || s.submissions.isEmpty then []
  else
    let r := gradingLoop genv s.submissions
    ({ s with isGrading := true, currentStep := .grading })
      :: r.2.map (midState s)
      ++ [{ s with currentStep := .grading, isGrading := false, submissions := r.1 }]

/-- The orchestrator protocol as the spec states it (§4.4): walk the queue in
order; for each record first publish a snapshot with that record set to
`processing` (the later records still untouched), then settle the record with
the outcome of its grading call and publish the updated snapshot; the settled
prefix is carried forward.  The source loop is proved equal to this
(`gradingLoop_eq_spec`). -/
def orchestratorSpec (genv : Nat → GradeEnv) :
    List Submission → List Submission → Nat → List Submission × List (List Submission)
  | done, [], _ => (done, [])
  | done, r :: rs, k =>
    let procRec := { r with status := SubStatus.processing }
    let settledRec := gradeRecord procRec (gradeSubmissionM (genv k))
    let next := orchestratorSpec genv (done ++ [settledRec]) rs (k + 1)
    (next.1, (done ++ procRec :: rs) :: (done ++ settledRec :: rs) :: next.2)

/-- The settled form of a queue: every record processed with its call's
outcome, in order. -/
def settleAll (genv : Nat → GradeEnv) : Nat → List Submission → List Submission
  | _, [] => []
  | k, r :: rs =>
    gradeRecord { r with status := SubStatus.processing } (gradeSubmissionM (genv k))
      :: settleAll genv (k + 1) rs

/-- A record is settled (counted by the progress bar). -/
def settledB (r : Submission) : Bool :=
  r.status == SubStatus.completed || r.status == SubStatus.error

/-- The progress numerator of src/App.tsx line 502:
`submissions.filter(s => s.status === 'completed' || s.status === 'error').length`. -/
def settledCount (l : List Submission) : Nat :=
  (l.filter settledB).length

/-- The displayed progress ratio (`settled / total`, a rational). -/
def progressRatio (l : List Submission) : ℚ :=
  (settledCount l : ℚ) / (l.length : ℚ)

/-- A freshly created record: `pending` and no result/error yet (the only
form in which records are created). -/
def freshB (r : Submission) : Bool :=
  r.status == SubStatus.pending && r.result.isNone && r.errorMsg.isNone

/-- The data-model invariant of a single record (spec §3): `result` present
exactly on `completed`, `errorMessage` present exactly on `error`, both
absent otherwise. -/
def recordInvariant (r : Submission) : Bool :=
  match r.status with
  | .pending => r.result.isNone && r.errorMsg.isNone
  | .processing => r.result.isNone && r.errorMsg.isNone
  | .completed => r.result.isSome && r.errorMsg.isNone
  | .error => r.errorMsg.isSome && r.result.isNone

/-- The invariant over the whole queue. -/
def stateInvariant (s : AppState) : Bool :=
  s.submissions.all recordInvariant

/-- The states reachable through the app's operations.  `fresh = true`
restricts grading runs to queues of freshly created (`pending`, field-free)
records — the first run over any queue is of this form; `fresh = false`
allows `startGrading` from any reachable state, as the code does.
`mkId`/ids are arbitrary strings (uuidv4), environments arbitrary.  The
`edit` constructor carries the consequence of uuid uniqueness that
`saveEditing` relies on: every record with the edited id is the found one,
which `saveEditing` checked to hold a result. -/
inductive Reach : Bool → AppState → Prop where
  | init : Reach b initialState
  | selectRef : Reach b s → Reach b (selectReference s f)
  | removeRef : Reach b s → Reach b (removeReference s)
  | next : Reach b s → s.referenceFile.isSome = true → Reach b (gotoUpload s)
  | stage : Reach b s → Reach b (stageFiles s fs)
  | addStudent : Reach b s → Reach b (addStudentToQueue s newId)
  | bulkAdd : Reach b s → Reach b (bulkAddSubmissions s images mkId)
  | removeSub : Reach b s → Reach b (removeSubmissionById s i)
  | edit : Reach b s → (∀ su ∈ s.submissions, su.id = i → su.result.isSome = true) →
      Reach b (saveEdit s i n c)
  | pages : Reach b s → Reach b (setPages s m)
  | reset : Reach b s → Reach b (resetRun s)
  | grade : Reach b s → (b = true → s.submissions.all freshB = true) →
      s' ∈ startGradingStates s genv → Reach b s'

/-- Completed records with a present result, the rows of every export
(src/unnamed/part_000 line 18). -/
def completedOf (subs : List Submission) : List Submission :=
  subs.filter (fun s => s.status == SubStatus.completed && s.result.isSome)

/-- All question numbers observed across the completed records' scores, in
encounter order, duplicates included. -/
def observedQNums (subs : List Submission) : List Int :=
  (completedOf subs).flatMap (fun sub =>
    match sub.result with
    | some r => r.scores.map (fun sc => sc.q_num)
    | none => [])

/-- `Array.from(new Set(...))`: deduplicate keeping first occurrences. -/
def jsSetToList (l : List Int) : List Int :=
  l.foldl (fun acc x => if x ∈ acc then acc else acc ++ [x]) []

/-- `sortedQNums` of `getExportData`: the deduplicated question numbers,
sorted ascending by `.sort((a, b) => a - b)`. -/
def exportQNums (subs : List Submission) : List Int :=
  (jsSetToList (observedQNums subs)).insertionSort (· ≤ ·)

/-- The header cells of `getExportData` (src/unnamed/part_000 lines 64–70). -/
def exportHeaderCells (subs : List Submission) : List String :=
  ["Class", "Name", "Total Score"]
    ++ (exportQNums subs).flatMap (fun q =>
        ["Q" ++ toString q ++ " Ans", "Q" ++ toString q ++ " Score"])
    ++ ["Feedback"]

/-- `new Map(res.scores.map(s => [s.q_num, {score, ans}]))` — a JS `Map`
built from pairs keeps the *last* entry for a duplicated key; lookup is
modelled by folding the insertions in order. -/
def jsMapLookup (scores : List ScoreItem) (q : Int) : Option ScoreItem :=
  scores.foldl (fun acc sc => if sc.q_num == q then some sc else acc) none

/-- The per-question cells of one export row (`item ? item.ans : "-"`,
`item ? item.score.toString() : "0"`; `ans` is `s.student_answer || "-"`). -/
def qColsFor (qs : List Int) (scores : List ScoreItem) : List String :=
  qs.flatMap (fun q =>
    match jsMapLookup scores q with
    | some item =>
      [if item.student_answer == "" then "-" else item.student_answer, toString item.score]
    | none => ["-", "0"])

/-- One CSV row of `getExportData` (src/unnamed/part_000 lines 89–95), as its
cell list (the code joins the cells with the separator).  `res.student_class
|| ""` is the identity on the string model. -/
def exportRowCells (qs : List Int) (res : GradingResult) : List String :=
  ["\"" ++ res.student_class ++ "\"", "\"" ++ res.student_name ++ "\"",
    toString res.total_score]
    ++ qColsFor qs res.scores
    ++ ["\"" ++ res.feedback.replace "\"" "\"\"" ++ "\""]

/-- `getExportData(separator)`: header string and newline-joined rows. -/
def getExportData (subs : List Submission) (sep : String) : String × String :=
  (String.intercalate sep (exportHeaderCells subs),
    String.intercalate "\n" ((completedOf subs).map (fun sub =>
      match sub.result with
      | some res => String.intercalate sep (exportRowCells (exportQNums subs) res)
      | none => "")))

/-- `handleCopyToClipboard` recomputes the question columns from scratch
(src/unnamed/part_000 lines 127–129); embedded separately, mirroring the
duplicated source. -/
def clipboardQNums (subs : List Submission) : List Int :=
  (jsSetToList ((completedOf subs).flatMap (fun sub =>
    match sub.result with
    | some r => r.scores.map (fun sc => sc.q_num)
    | none => []))).insertionSort (· ≤ ·)

/-- The clipboard header cells (src/unnamed/part_000 line 132). -/
def clipboardHeaderCells (subs : List Submission) : List String :=
  ["Class", "Name", "Total Score"]
    ++ (clipboardQNums subs).flatMap (fun q =>
        ["Q" ++ toString q ++ " Ans", "Q" ++ toString q ++ " Score"])
    ++ ["Feedback"]

/-- One tab-separated clipboard row (src/unnamed/part_000 lines 150–156):
no quoting, tabs in the feedback replaced by spaces. -/
def clipboardRowCells (qs : List Int) (res : GradingResult) : List String :=
  [res.student_class, res.student_name, toString res.total_score]
    ++ qColsFor qs res.scores
    ++ [res.feedback.replace "\t" " "]

/-- The full TSV content copied to the clipboard. -/
def clipboardContent (subs : List Submission) : String :=
  String.intercalate "\n"
    (String.intercalate "\t" (clipboardHeaderCells subs)
      :: (completedOf subs).map (fun sub =>
        match sub.result with
        | some res => String.intercalate "\t" (clipboardRowCells (clipboardQNums subs) res)
        | none => ""))

/-! ## Concrete sample inputs used by witnesses and counterexamples -/

/-- A parsed response with every field absent (all defaults apply). -/
def emptyRaw : RawResponse := ⟨none, none, none, none, none⟩

/-- A freshly queued one-page submission. -/
def pendingSub (i : String) : Submission :=
  { id := i, files := ["page.jpg"], status := SubStatus.pending }

/-- A state ready to grade: reference selected, the given queue staged. -/
def readyState (subs : List Submission) : AppState :=
  { currentStep := .uploadStudents
    referenceFile := some "ref.pdf"
    submissions := subs
    isGrading := false
    stagedFiles := []
    isBulkMode := false
    pagesPerStudent := 1 }

/-- An environment whose second grading call fails with an `Error("boom")`
and whose other calls succeed. -/
def failSecondEnv : Nat → GradeEnv :=
  fun j => if j = 1 then .sdkFailure (.err "boom") else .parsed (.jval emptyRaw)

/-- An environment whose every call succeeds on the all-default response. -/
def allOkEnv : Nat → GradeEnv :=
  fun _ => .parsed (.jval emptyRaw)

/-- One staged page queued as one student. -/
def oneQueuedState : AppState :=
  addStudentToQueue (stageFiles (gotoUpload (selectReference initialState "r1")) ["f1"]) "id1"

/-- A second staged page queued as a second student. -/
def twoQueuedState : AppState :=
  addStudentToQueue (stageFiles oneQueuedState ["f2"]) "id2"

/-- The final state of a first, all-successful run over the one-record queue. -/
def oneGradedState : AppState := (startGrading oneQueuedState allOkEnv).1

/-- The final state of a first, all-successful run over the two-record queue. -/
def twoGradedState : AppState := (startGrading twoQueuedState allOkEnv).1

/-- After a run, removing the reference file and selecting a new one brings
the app back to the upload step with the already graded queue intact. -/
def oneRegradeState : AppState := gotoUpload (selectReference (removeReference oneGradedState) "r2")

/-- The two-record variant of `oneRegradeState`. -/
def twoRegradeState : AppState := gotoUpload (selectReference (removeReference twoGradedState) "r2")

/-- The first queue snapshot published by a second run over the already
graded one-record queue (list index 1 of the run's states, right after the
initial `isGrading` state): the record is `processing` yet still holds the
result of the first run. -/
def c5badState : AppState :=
  match (startGradingStates oneRegradeState allOkEnv)[1]? with
  | some st => st
  | none => initialState

/-! ## Helper lemmas for the response normalization -/

theorem badField_of_missing (v : Option RawVal) (h : missingEmptyOrNonString v = true) :
    (!jsTruthy v || !isStringVal v || (strValOf v).trim == "") = true := by
  match v with
  | none => rfl
  | some (.rstr s) =>
    simp only [missingEmptyOrNonString] at h
    simp [jsTruthy, isStringVal, strValOf, h]
  | some (.rnum n) => simp [isStringVal]
  | some (.rarr xs) => simp [isStringVal]
  | some .rnull => simp [isStringVal]
  | some (.rbool b) => simp [isStringVal]

theorem normalize_name_of_missing (raw : RawResponse)
    (h : missingEmptyOrNonString raw.student_name = true) :
    (normalizeResponse raw).student_name = nameSentinel ∧
      (normalizeResponse raw).hasOCRIssues = true := by
  have hb := badField_of_missing raw.student_name h
  simp [normalizeResponse, hb]

theorem normalize_class_of_missing (raw : RawResponse)
    (h : missingEmptyOrNonString raw.student_class = true) :
    (normalizeResponse raw).student_class = classSentinel ∧
      (normalizeResponse raw).hasOCRIssues = true := by
  have hb := badField_of_missing raw.student_class h
  simp [normalizeResponse, hb]

theorem normalize_total_score_default (raw : RawResponse)
    (h : isNumberVal raw.total_score = false) :
    (normalizeResponse raw).total_score = 0 := by
  simp only [normalizeResponse]
  match hv : raw.total_score with
  | none => rfl
  | some (.rstr s) => rfl
  | some (.rnum n) => rw [hv] at h; simp [isNumberVal] at h
  | some (.rarr xs) => rfl
  | some .rnull => rfl
  | some (.rbool b) => rfl

theorem normalize_scores_default (raw : RawResponse)
    (h : isArrayVal raw.scores = false) :
    (normalizeResponse raw).scores = [] := by
  simp only [normalizeResponse]
  match hv : raw.scores with
  | none => rfl
  | some (.rstr s) => rfl
  | some (.rnum n) => rfl
  | some (.rarr xs) => rw [hv] at h; simp [isArrayVal] at h
  | some .rnull => rfl
  | some (.rbool b) => rfl

theorem normalize_feedback_default (raw : RawResponse)
    (h : raw.feedback = none) :
    (normalizeResponse raw).feedback = feedbackSentinel := by
  simp [normalizeResponse, h]

/-! ## Claim theorems: the grading-service normalization -/

/-- Claim C6: a grading response that parses but whose `student_name` is
missing, empty/whitespace-only, or not a string yields a result whose
`student_name` is the sentinel placeholder with `hasOCRIssues = true` —
regardless of the other fields; and independently the same normalization
(its own sentinel plus the flag) applies to a bad `student_class`. -/
theorem c6_name_class_sentinel_normalization (raw : RawResponse) :
    (missingEmptyOrNonString raw.student_name = true →
      ∃ r, gradeSubmissionM (.parsed (.jval raw)) = .ok r
        ∧ r.student_name = nameSentinel ∧ r.hasOCRIssues = true)
    ∧ (missingEmptyOrNonString raw.student_class = true →
      ∃ r, gradeSubmissionM (.parsed (.jval raw)) = .ok r
        ∧ r.student_class = classSentinel ∧ r.hasOCRIssues = true) :=
  ⟨fun hn => ⟨normalizeResponse raw, rfl,
      (normalize_name_of_missing raw hn).1, (normalize_name_of_missing raw hn).2⟩,
    fun hc => ⟨normalizeResponse raw, rfl,
      (normalize_class_of_missing raw hc).1, (normalize_class_of_missing raw hc).2⟩⟩

/-- Witness for C6, exercising each bad field on its own: a response whose
`student_name` is absent but whose `student_class` is a proper string, and a
response whose `student_name` is a proper string but whose `student_class`
is numeric. -/
theorem c6_witness :
    (∃ r, gradeSubmissionM (.parsed (.jval ⟨none, some (.rstr "3-2"), none, none, none⟩)) = .ok r
      ∧ r.student_name = nameSentinel ∧ r.hasOCRIssues = true)
    ∧ (∃ r, gradeSubmissionM (.parsed (.jval ⟨some (.rstr "Kim"), some (.rnum 3), none, none, none⟩)) = .ok r
      ∧ r.student_class = classSentinel ∧ r.hasOCRIssues = true) :=
  ⟨(c6_name_class_sentinel_normalization ⟨none, some (.rstr "3-2"), none, none, none⟩).1
      (by decide),
    (c6_name_class_sentinel_normalization ⟨some (.rstr "Kim"), some (.rnum 3), none, none, none⟩).2
      (by decide)⟩

/-- Claim C7: among environments that deliver a response, `gradeSubmission`
raises an error exactly when the response is empty or its text does not parse
to structured data (a `JSON.parse` exception, or a top-level `null` whose
field accesses throw inside the same `try`); any other parsed response is
never a hard failure — each missing/ill-typed field is defaulted individually
(non-numeric `total_score` to 0, non-array `scores` to `[]`, missing
`feedback` to the sentinel) and a complete result is returned. -/
theorem c7_hard_failure_exactly_on_unparseable_response (env : GradeEnv)
    (h : responseReceived env = true) :
    ((okOf (gradeSubmissionM env) = none) ↔
        (env = .emptyText ∨ env = .malformed ∨ env = .parsed .jnull))
    ∧ (∀ raw, env = .parsed (.jval raw) →
        ∃ r, gradeSubmissionM env = .ok r
          ∧ (isNumberVal raw.total_score = false → r.total_score = 0)
          ∧ (isArrayVal raw.scores = false → r.scores = [])
          ∧ (raw.feedback = none → r.feedback = feedbackSentinel)) := by
  match env with
  | .sdkFailure t => simp [responseReceived] at h
  | .emptyText => exact ⟨by simp [gradeSubmissionM, okOf], by intro raw h; cases h⟩
  | .malformed => exact ⟨by simp [gradeSubmissionM, okOf], by intro raw h; cases h⟩
  | .parsed .jnull => exact ⟨by simp [gradeSubmissionM, okOf], by intro raw h; cases h⟩
  | .parsed (.jval raw0) =>
    refine ⟨by simp [gradeSubmissionM, okOf], ?_⟩
    intro raw h
    cases h
    exact ⟨normalizeResponse raw0, rfl,
      normalize_total_score_default raw0,
      normalize_scores_default raw0,
      normalize_feedback_default raw0⟩

/-- Witness for C7: a parsed response whose `total_score` is a string, whose
`scores` is a number and whose `feedback` is absent. -/
theorem c7_witness :
    ((okOf (gradeSubmissionM (.parsed (.jval ⟨some (.rstr "a"), none, some (.rstr "9"), none, some (.rnum 7)⟩))) = none) ↔
        ((.parsed (.jval ⟨some (.rstr "a"), none, some (.rstr "9"), none, some (.rnum 7)⟩) : GradeEnv) = .emptyText
          ∨ (.parsed (.jval ⟨some (.rstr "a"), none, some (.rstr "9"), none, some (.rnum 7)⟩) : GradeEnv) = .malformed
          ∨ (.parsed (.jval ⟨some (.rstr "a"), none, some (.rstr "9"), none, some (.rnum 7)⟩) : GradeEnv) = .parsed .jnull))
    ∧ (∀ raw, (.parsed (.jval ⟨some (.rstr "a"), none, some (.rstr "9"), none, some (.rnum 7)⟩) : GradeEnv) = .parsed (.jval raw) →
        ∃ r, gradeSubmissionM (.parsed (.jval ⟨some (.rstr "a"), none, some (.rstr "9"), none, some (.rnum 7)⟩)) = .ok r
          ∧ (isNumberVal raw.total_score = false → r.total_score = 0)
          ∧ (isArrayVal raw.scores = false → r.scores = [])
          ∧ (raw.feedback = none → r.feedback = feedbackSentinel)) :=
  c7_hard_failure_exactly_on_unparseable_response
    (.parsed (.jval ⟨some (.rstr "a"), none, some (.rstr "9"), none, some (.rnum 7)⟩)) rfl

/-! ## Claim theorems: the rasterizer -/

/-- Claim C4 (failing input): a page whose `canvas.toBlob` delivers `null` is
silently dropped — `convertPdfToImages` succeeds with a shorter artifact list
instead of failing, contradicting the claim (and the function's own
"one per page" doc comment).  A one-page PDF with a null blob yields zero
artifacts; a two-page PDF with the second blob null yields one. -/
theorem c4_null_blob_page_silently_dropped :
    convertPdfToImages "doc.pdf" [.blobNull] = .ok []
      ∧ convertPdfToImages "doc.pdf" [.rendered, .blobNull] = .ok ["doc_page_1.jpg"] :=
  ⟨rfl, rfl⟩

/-! ## Claim theorems: the startGrading guard -/

/-- Claim C10: with no reference file or an empty queue, `startGrading`
returns before touching anything: the state is unchanged, no snapshot is
published, no grading call is issued and `isGrading` is never set (the early
`return` precedes `setIsGrading(true)`). -/
theorem c10_startGrading_noop_without_ref_or_queue (s : AppState) (genv : Nat → GradeEnv)
    (h : s.referenceFile = none ∨ s.submissions = []) :
    startGrading s genv = (s, []) ∧ startGradingStates s genv = [] := by
  have hg : (s.referenceFile.isNone || s.submissions.isEmpty) = true := by
    rcases h with h | h <;> simp [h]
  constructor
  · simp [startGrading, hg]
  · simp [startGradingStates, hg]

/-- Witness for C10: the initial state (no reference file). -/
theorem c10_witness :
    startGrading initialState (fun _ => GradeEnv.emptyText) = (initialState, [])
      ∧ startGradingStates initialState (fun _ => GradeEnv.emptyText) = [] :=
  c10_startGrading_noop_without_ref_or_queue initialState (fun _ => GradeEnv.emptyText)
    (Or.inl rfl)

/-! ## Helper lemmas for the segmentation loop -/

theorem chunkRecords_nil (p : Nat) (hp : 0 < p) (mkId : Nat → String) (i : Nat) :
    chunkRecords p hp mkId [] i = [] := by
  rw [chunkRecords]
  simp

theorem chunkRecords_cons (p : Nat) (hp : 0 < p) (mkId : Nat → String)
    (l : List String) (i : Nat) (hl : l ≠ []) :
    chunkRecords p hp mkId l i =
      { id := mkId i, files := l.take p, status := .pending }
        :: chunkRecords p hp mkId (l.drop p) (i + p) := by
  rw [chunkRecords]
  simp [hl]

theorem segmentLoopAux_eq_chunkRecords (p : Nat) (hp : 0 < p) (mkId : Nat → String)
    (images : List String) :
    ∀ fuel i, images.length - i ≤ fuel →
      segmentLoopAux images p mkId fuel i = chunkRecords p hp mkId (images.drop i) i := by
  intro fuel
  induction fuel with
  | zero =>
    intro i h
    have hi : images.length ≤ i := by omega
    rw [List.drop_eq_nil_of_le hi, chunkRecords_nil]
    rfl
  | succ fuel ih =>
    intro i h
    by_cases hi : i < images.length
    · have hlen : 0 < (images.drop i).length := by
        simp only [List.length_drop]; omega
      have hne : images.drop i ≠ [] := List.length_pos.mp hlen
      have hchunk : 0 < ((images.drop i).take p).length := by
        simp only [List.length_take]; omega
      rw [chunkRecords_cons p hp mkId _ _ hne]
      simp only [segmentLoopAux, hi, if_true, hchunk, gt_iff_lt, if_pos]
      rw [ih (i + p) (by omega), List.drop_drop]
    · have hi' : images.length ≤ i := by omega
      rw [List.drop_eq_nil_of_le hi', chunkRecords_nil]
      simp [segmentLoopAux, hi]

theorem segmentSubmissions_eq_chunkRecords (images : List String) (p : Nat)
    (mkId : Nat → String) (hp : 0 < p) :
    segmentSubmissions images p mkId = chunkRecords p hp mkId images 0 := by
  have h := segmentLoopAux_eq_chunkRecords p hp mkId images images.length 0 (by omega)
  simpa [segmentSubmissions] using h

theorem chunkRecords_flatten (p : Nat) (hp : 0 < p) (mkId : Nat → String) :
    ∀ n l i, l.length ≤ n →
      ((chunkRecords p hp mkId l i).map (fun r => r.files)).flatten = l := by
  intro n
  induction n with
  | zero =>
    intro l i h
    have : l = [] := List.eq_nil_of_length_eq_zero (by omega)
    subst this
    simp [chunkRecords_nil]
  | succ n ih =>
    intro l i h
    by_cases hl : l = []
    · subst hl; simp [chunkRecords_nil]
    · rw [chunkRecords_cons p hp mkId l i hl]
      simp only [List.map_cons, List.flatten_cons]
      rw [ih (l.drop p) (i + p) (by simp only [List.length_drop]; omega)]
      exact List.take_append_drop p l

theorem chunkRecords_length (p : Nat) (hp : 0 < p) (mkId : Nat → String) :
    ∀ n l i, l.length ≤ n →
      (chunkRecords p hp mkId l i).length = (l.length + p - 1) / p := by
  intro n
  induction n with
  | zero =>
    intro l i h
    have : l = [] := List.eq_nil_of_length_eq_zero (by omega)
    subst this
    rw [chunkRecords_nil]
    simp [Nat.div_eq_of_lt (show p - 1 < p by omega)]
  | succ n ih =>
    intro l i h
    by_cases hl : l = []
    · subst hl
      rw [chunkRecords_nil]
      simp [Nat.div_eq_of_lt (show p - 1 < p by omega)]
    · have hL : 0 < l.length := List.length_pos.mpr hl
      rw [chunkRecords_cons p hp mkId l i hl]
      simp only [List.length_cons, ih (l.drop p) (i + p) (by simp only [List.length_drop]; omega),
        List.length_drop]
      rcases Nat.lt_or_ge l.length p with hpl | hpl
      · have h0 : l.length - p = 0 := by omega
        rw [h0]
        have hz : (0 + p - 1) / p = 0 := Nat.div_eq_of_lt (by omega)
        rw [hz]
        exact (Nat.div_eq_of_lt_le (by omega) (by omega)).symm
      · have h1 : l.length - p + p - 1 = l.length - 1 := by omega
        have h2 : l.length + p - 1 = (l.length - 1) + p := by omega
        rw [h1, h2, Nat.add_div_right _ hp]

theorem chunkRecords_pending (p : Nat) (hp : 0 < p) (mkId : Nat → String) :
    ∀ n l i, l.length ≤ n →
      ∀ r ∈ chunkRecords p hp mkId l i,
        r.status = SubStatus.pending ∧ r.result = none ∧ r.errorMsg = none := by
  intro n
  induction n with
  | zero =>
    intro l i h
    have : l = [] := List.eq_nil_of_length_eq_zero (by omega)
    subst this
    simp [chunkRecords_nil]
  | succ n ih =>
    intro l i h
    by_cases hl : l = []
    · subst hl; simp [chunkRecords_nil]
    · rw [chunkRecords_cons p hp mkId l i hl]
      intro r hr
      rcases List.mem_cons.mp hr with hr | hr
      · subst hr; exact ⟨rfl, rfl, rfl⟩
      · exact ih (l.drop p) (i + p) (by simp only [List.length_drop]; omega) r hr

theorem chunkRecords_dropLast_sizes (p : Nat) (hp : 0 < p) (mkId : Nat → String) :
    ∀ n l i, l.length ≤ n →
      ∀ fs ∈ ((chunkRecords p hp mkId l i).map (fun r => r.files)).dropLast,
        fs.length = p := by
  intro n
  induction n with
  | zero =>
    intro l i h
    have : l = [] := List.eq_nil_of_length_eq_zero (by omega)
    subst this
    simp [chunkRecords_nil]
  | succ n ih =>
    intro l i h
    by_cases hl : l = []
    · subst hl; simp [chunkRecords_nil]
    · rw [chunkRecords_cons p hp mkId l i hl]
      by_cases hd : l.drop p = []
      · rw [hd, chunkRecords_nil]
        simp
      · have hpl : p < l.length := by
          have := List.length_pos.mpr hd
          simp only [List.length_drop] at this
          omega
        rw [chunkRecords_cons p hp mkId (l.drop p) (i + p) hd]
        simp only [List.map_cons, List.dropLast_cons₂]
        intro fs hfs
        rcases List.mem_cons.mp hfs with hfs | hfs
        · subst hfs
          simp only [List.length_take]
          omega
        · refine ih (l.drop p) (i + p) (by simp only [List.length_drop]; omega) fs ?_
          rw [chunkRecords_cons p hp mkId (l.drop p) (i + p) hd]
          simpa using hfs

theorem chunkRecords_last_size (p : Nat) (hp : 0 < p) (mkId : Nat → String) :
    ∀ n l i, l.length ≤ n → l ≠ [] →
      ∃ lastFiles,
        ((chunkRecords p hp mkId l i).map (fun r => r.files)).getLast? = some lastFiles
          ∧ lastFiles.length = (if l.length % p = 0 then p else l.length % p) := by
  intro n
  induction n with
  | zero =>
    intro l i h hl
    exact absurd (List.eq_nil_of_length_eq_zero (by omega)) hl
  | succ n ih =>
    intro l i h hl
    have hL : 0 < l.length := List.length_pos.mpr hl
    rw [chunkRecords_cons p hp mkId l i hl]
    by_cases hd : l.drop p = []
    · have hle : l.length ≤ p := by
        have : (l.drop p).length = 0 := by rw [hd]; rfl
        simp only [List.length_drop] at this
        omega
      rw [hd, chunkRecords_nil]
      refine ⟨l.take p, by simp, ?_⟩
      rw [List.take_of_length_le hle]
      rcases Nat.eq_or_lt_of_le hle with heq | hlt
      · simp [heq, Nat.mod_self]
      · rw [Nat.mod_eq_of_lt hlt]
        have : l.length ≠ 0 := by omega
        simp [this]
    · have hpl : p < l.length := by
        have := List.length_pos.mpr hd
        simp only [List.length_drop] at this
        omega
      obtain ⟨lastFiles, hlast, hlen⟩ :=
        ih (l.drop p) (i + p) (by simp only [List.length_drop]; omega) hd
      refine ⟨lastFiles, ?_, ?_⟩
      · rw [chunkRecords_cons p hp mkId (l.drop p) (i + p) hd] at hlast ⊢
        simp only [List.map_cons] at hlast ⊢
        rw [List.getLast?_cons_cons]
        exact hlast
      · rw [hlen, List.length_drop, ← Nat.mod_eq_sub_mod (by omega)]

theorem chunkRecords_single (p : Nat) (hp : 0 < p) (mkId : Nat → String)
    (l : List String) (i : Nat) (hl : l ≠ []) (hlt : l.length < p) :
    (chunkRecords p hp mkId l i).map (fun r => r.files) = [l] := by
  rw [chunkRecords_cons p hp mkId l i hl,
    List.drop_eq_nil_of_le (by omega), chunkRecords_nil]
  simp [List.take_of_length_le (by omega : l.length ≤ p)]

/-! ## Claim theorem: bulk segmentation -/

/-- Claim C2: for every positive `p` and ordered page sequence, bulk
segmentation yields `⌈n/p⌉ = (n + p - 1) / p` pending records; all but the
last hold exactly `p` pages, the last holds `n % p` pages (or `p` when
`n % p = 0`); concatenating the records' page lists in order reproduces the
original sequence; no pages yields no records, and `p` larger than the page
count yields exactly one record holding all pages. -/
theorem c2_bulk_segmentation (images : List String) (p : Nat) (mkId : Nat → String)
    (hp : 0 < p) :
    (segmentSubmissions images p mkId).length = (images.length + p - 1) / p
    ∧ (∀ r ∈ segmentSubmissions images p mkId,
        r.status = SubStatus.pending ∧ r.result = none ∧ r.errorMsg = none)
    ∧ ((segmentSubmissions images p mkId).map (fun r => r.files)).flatten = images
    ∧ (∀ fs ∈ ((segmentSubmissions images p mkId).map (fun r => r.files)).dropLast,
        fs.length = p)
    ∧ (images ≠ [] →
        ∃ lastFiles,
          ((segmentSubmissions images p mkId).map (fun r => r.files)).getLast? = some lastFiles
            ∧ lastFiles.length = (if images.length % p = 0 then p else images.length % p))
    ∧ (images = [] → segmentSubmissions images p mkId = [])
    ∧ (images ≠ [] → images.length < p →
        (segmentSubmissions images p mkId).map (fun r => r.files) = [images]) := by
  rw [segmentSubmissions_eq_chunkRecords images p mkId hp]
  refine ⟨chunkRecords_length p hp mkId images.length images 0 le_rfl,
    chunkRecords_pending p hp mkId images.length images 0 le_rfl,
    chunkRecords_flatten p hp mkId images.length images 0 le_rfl,
    chunkRecords_dropLast_sizes p hp mkId images.length images 0 le_rfl,
    fun hne => chunkRecords_last_size p hp mkId images.length images 0 le_rfl hne,
    fun he => by subst he; exact chunkRecords_nil p hp mkId 0,
    fun hne hlt => chunkRecords_single p hp mkId images 0 hne hlt⟩

/-- Witness for C2: three pages split two per student. -/
theorem c2_witness :
    (segmentSubmissions ["a", "b", "c"] 2 (fun i => toString i)).length = (3 + 2 - 1) / 2
    ∧ (∀ r ∈ segmentSubmissions ["a", "b", "c"] 2 (fun i => toString i),
        r.status = SubStatus.pending ∧ r.result = none ∧ r.errorMsg = none)
    ∧ ((segmentSubmissions ["a", "b", "c"] 2 (fun i => toString i)).map (fun r => r.files)).flatten
        = ["a", "b", "c"]
    ∧ (∀ fs ∈ ((segmentSubmissions ["a", "b", "c"] 2 (fun i => toString i)).map
          (fun r => r.files)).dropLast, fs.length = 2)
    ∧ ((["a", "b", "c"] : List String) ≠ [] →
        ∃ lastFiles,
          ((segmentSubmissions ["a", "b", "c"] 2 (fun i => toString i)).map
              (fun r => r.files)).getLast? = some lastFiles
            ∧ lastFiles.length = (if (["a", "b", "c"] : List String).length % 2 = 0 then 2
                else (["a", "b", "c"] : List String).length % 2))
    ∧ ((["a", "b", "c"] : List String) = [] →
        segmentSubmissions ["a", "b", "c"] 2 (fun i => toString i) = [])
    ∧ ((["a", "b", "c"] : List String) ≠ [] → (["a", "b", "c"] : List String).length < 2 →
        (segmentSubmissions ["a", "b", "c"] 2 (fun i => toString i)).map (fun r => r.files)
          = [["a", "b", "c"]]) :=
  c2_bulk_segmentation ["a", "b", "c"] 2 (fun i => toString i) (by decide)

/-! ## Helper lemmas for the grading loop -/

theorem set_middle (l₁ l₂ : List Submission) (b a : Submission) :
    (l₁ ++ b :: l₂).set l₁.length a = l₁ ++ a :: l₂ := by
  induction l₁ with
  | nil => rfl
  | cons x xs ih => simp [List.set, ih]

theorem get_middle (l₁ l₂ : List Submission) (b : Submission)
    (h : l₁.length < (l₁ ++ b :: l₂).length) :
    (l₁ ++ b :: l₂).get ⟨l₁.length, h⟩ = b := by
  induction l₁ with
  | nil => rfl
  | cons x xs ih => exact ih (by simpa using h)

theorem gradingLoopAux_eq_spec (genv : Nat → GradeEnv) :
    ∀ rest done fuel, rest.length ≤ fuel →
      gradingLoopAux genv fuel (done ++ rest) done.length
        = orchestratorSpec genv done rest done.length := by
  intro rest
  induction rest with
  | nil =>
    intro done fuel h
    match fuel with
    | 0 => simp [gradingLoopAux, orchestratorSpec]
    | fuel + 1 => simp [gradingLoopAux, orchestratorSpec]
  | cons r rs ih =>
    intro done fuel h
    match fuel with
    | 0 => simp at h
    | fuel + 1 =>
      have hlt : done.length < (done ++ r :: rs).length := by
        simp [List.length_append]
      simp only [gradingLoopAux, hlt, dif_pos, get_middle, set_middle, orchestratorSpec]
      have hassoc : done ++
          gradeRecord { r with status := SubStatus.processing } (gradeSubmissionM (genv done.length))
            :: rs
          = (done ++ [gradeRecord { r with status := SubStatus.processing }
              (gradeSubmissionM (genv done.length))]) ++ rs := by
        simp
      rw [hassoc,
        show done.length + 1
            = (done ++ [gradeRecord { r with status := SubStatus.processing }
                (gradeSubmissionM (genv done.length))]).length by simp,
        ih _ fuel (by simpa using h)]

theorem gradingLoop_eq_spec (genv : Nat → GradeEnv) (arr : List Submission) :
    gradingLoop genv arr = orchestratorSpec genv [] arr 0 := by
  have h := gradingLoopAux_eq_spec genv arr [] arr.length le_rfl
  simpa [gradingLoop] using h

theorem orchestratorSpec_fst (genv : Nat → GradeEnv) :
    ∀ rest done k, (orchestratorSpec genv done rest k).1 = done ++ settleAll genv k rest := by
  intro rest
  induction rest with
  | nil => intro done k; simp [orchestratorSpec, settleAll]
  | cons r rs ih =>
    intro done k
    simp only [orchestratorSpec, settleAll, ih]
    simp

theorem settleAll_length (genv : Nat → GradeEnv) :
    ∀ rest k, (settleAll genv k rest).length = rest.length := by
  intro rest
  induction rest with
  | nil => intro k; rfl
  | cons r rs ih => intro k; simp [settleAll, ih]

theorem settleAll_getElem? (genv : Nat → GradeEnv) :
    ∀ rest k j, (settleAll genv k rest)[j]?
      = (rest[j]?).map (fun r =>
          gradeRecord { r with status := SubStatus.processing } (gradeSubmissionM (genv (k + j)))) := by
  intro rest
  induction rest with
  | nil => intro k j; simp [settleAll]
  | cons r rs ih =>
    intro k j
    match j with
    | 0 => simp [settleAll]
    | j + 1 =>
      simp only [settleAll, List.getElem?_cons_succ]
      rw [ih (k + 1) j, show k + 1 + j = k + (j + 1) by omega]

/-! ## Claim theorems: the sequential orchestrator -/

theorem orchestratorSpec_take_agree (genv genv' : Nat → GradeEnv) :
    ∀ rest done k m, (∀ j, j < k + m → genv j = genv' j) →
      ((orchestratorSpec genv done rest k).2).take (2 * m + 1)
        = ((orchestratorSpec genv' done rest k).2).take (2 * m + 1) := by
  intro rest
  induction rest with
  | nil => intro done k m h; simp [orchestratorSpec]
  | cons r rs ih =>
    intro done k m h
    match m with
    | 0 =>
      simp [orchestratorSpec]
    | m + 1 =>
      have hk : genv k = genv' k := h k (by omega)
      have harith : 2 * (m + 1) + 1 = (2 * m + 1) + 1 + 1 := by ring
      simp only [orchestratorSpec, harith, List.take_succ_cons]
      rw [hk, ih _ (k + 1) m (fun j hj => h j (by omega))]

theorem startGrading_trace (s : AppState) (genv : Nat → GradeEnv)
    (href : s.referenceFile.isSome = true) (hsub : s.submissions ≠ []) :
    (startGrading s genv).2 = (orchestratorSpec genv [] s.submissions 0).2 := by
  have h1 : s.referenceFile.isNone = false := by
    cases h' : s.referenceFile <;> simp_all
  have h2 : s.submissions.isEmpty = false := by
    cases h' : s.submissions <;> simp_all
  simp [startGrading, h1, h2, gradingLoop_eq_spec]

/-- Claim C3: `startGrading` processes the queue strictly sequentially in
order.  The published snapshot trace and the final queue equal those of
`orchestratorSpec`, which publishes, for each record in order, first the
snapshot with that record set to `processing` and then the snapshot with its
terminal status, with all earlier records already settled and all later
records untouched — so the observed update sequence is record 1:
processing/terminal, record 2: processing/terminal, ..., with no
interleaving.  The last conjunct is the happens-before statement: the first
`2m + 1` published snapshots — up to and including record `m`'s `processing`
snapshot — are unchanged under any change to the outcomes of calls `m`
onwards, i.e. each record's `processing` update is published before its own
grading call's outcome can influence anything. -/
theorem c3_sequential_in_order_processing (s : AppState) (genv : Nat → GradeEnv)
    (href : s.referenceFile.isSome = true) (hsub : s.submissions ≠ []) :
    (startGrading s genv).2 = (orchestratorSpec genv [] s.submissions 0).2
    ∧ (startGrading s genv).1.submissions = (orchestratorSpec genv [] s.submissions 0).1
    ∧ (∀ genv' : Nat → GradeEnv, ∀ m, (∀ j, j < m → genv j = genv' j) →
        ((startGrading s genv).2).take (2 * m + 1)
          = ((startGrading s genv').2).take (2 * m + 1)) := by
  have h1 : s.referenceFile.isNone = false := by
    cases h' : s.referenceFile <;> simp_all
  have h2 : s.submissions.isEmpty = false := by
    cases h' : s.submissions <;> simp_all
  refine ⟨?_, ?_, ?_⟩
  · simp [startGrading, h1, h2, gradingLoop_eq_spec]
  · simp [startGrading, h1, h2, gradingLoop_eq_spec]
  · intro genv' m hagree
    rw [startGrading_trace s genv href hsub, startGrading_trace s genv' href hsub]
    exact orchestratorSpec_take_agree genv genv' s.submissions [] 0 m
      (fun j hj => hagree j (by omega))

/-- Witness for C3: a one-record queue with a failing call. -/
theorem c3_witness :
    (startGrading (readyState [pendingSub "s1"]) (fun _ => GradeEnv.emptyText)).2
        = (orchestratorSpec (fun _ => GradeEnv.emptyText) [] (readyState [pendingSub "s1"]).submissions 0).2
    ∧ (startGrading (readyState [pendingSub "s1"]) (fun _ => GradeEnv.emptyText)).1.submissions
        = (orchestratorSpec (fun _ => GradeEnv.emptyText) [] (readyState [pendingSub "s1"]).submissions 0).1
    ∧ (∀ genv' : Nat → GradeEnv, ∀ m,
        (∀ j, j < m → (fun _ => GradeEnv.emptyText : Nat → GradeEnv) j = genv' j) →
        ((startGrading (readyState [pendingSub "s1"]) (fun _ => GradeEnv.emptyText)).2).take (2 * m + 1)
          = ((startGrading (readyState [pendingSub "s1"]) genv').2).take (2 * m + 1)) :=
  c3_sequential_in_order_processing (readyState [pendingSub "s1"]) (fun _ => GradeEnv.emptyText)
    (by decide) (by decide)

theorem startGrading_final_submissions (s : AppState) (genv : Nat → GradeEnv)
    (href : s.referenceFile.isSome = true) (hsub : s.submissions ≠ []) :
    (startGrading s genv).1.submissions = settleAll genv 0 s.submissions := by
  have h1 : s.referenceFile.isNone = false := by
    cases h' : s.referenceFile <;> simp_all
  have h2 : s.submissions.isEmpty = false := by
    cases h' : s.submissions <;> simp_all
  have h3 := orchestratorSpec_fst genv s.submissions [] 0
  simp only [List.nil_append] at h3
  simp [startGrading, h1, h2, gradingLoop_eq_spec, h3]

/-- Claim C1: on a queue of pending records where exactly the `k`-th call
fails (with an `Error` carrying message `m`), `startGrading` leaves record
`k` with `status = error` and the message in `errorMsg`, and every other
record `completed` with its returned result stored — the failure does not
prevent later records from being graded. -/
theorem c1_single_failure_isolated (s : AppState) (genv : Nat → GradeEnv) (k : Nat)
    (m : String) (res : Nat → GradingResult)
    (href : s.referenceFile.isSome = true)
    (hpend : ∀ r ∈ s.submissions, r.status = SubStatus.pending)
    (hk : k < s.submissions.length)
    (hfail : errOf (gradeSubmissionM (genv k)) = some (.err m))
    (hok : ∀ j, j < s.submissions.length → j ≠ k → okOf (gradeSubmissionM (genv j)) = some (res j)) :
    (startGrading s genv).1.submissions.length = s.submissions.length
    ∧ (∃ rec, (startGrading s genv).1.submissions[k]? = some rec
        ∧ rec.status = SubStatus.error ∧ rec.errorMsg = some m)
    ∧ (∀ j, j < s.submissions.length → j ≠ k →
        ∃ rec, (startGrading s genv).1.submissions[j]? = some rec
          ∧ rec.status = SubStatus.completed ∧ rec.result = some (res j)) := by
  have hsub : s.submissions ≠ [] := by
    intro h
    rw [h] at hk
    simp at hk
  have hfinal : (startGrading s genv).1.submissions = settleAll genv 0 s.submissions :=
    startGrading_final_submissions s genv href hsub
  refine ⟨?_, ?_, ?_⟩
  · rw [hfinal, settleAll_length]
  · have hgetk : s.submissions[k]? = some s.submissions[k] := List.getElem?_eq_getElem hk
    have hcall : gradeSubmissionM (genv k) = .error (.err m) := by
      cases hc : gradeSubmissionM (genv k) with
      | ok r => rw [hc] at hfail; simp [errOf] at hfail
      | error t => rw [hc] at hfail; simp [errOf] at hfail; rw [hfail]
    refine ⟨_, by rw [hfinal, settleAll_getElem?, hgetk]; rfl, ?_, ?_⟩
    · simp [hcall, gradeRecord]
    · simp [hcall, gradeRecord]
  · intro j hj hjk
    have hgetj : s.submissions[j]? = some s.submissions[j] := List.getElem?_eq_getElem hj
    have hcall : gradeSubmissionM (genv j) = .ok (res j) := by
      cases hc : gradeSubmissionM (genv j) with
      | ok r =>
        have := hok j hj hjk
        rw [hc] at this
        simp [okOf] at this
        rw [this]
      | error t =>
        have := hok j hj hjk
        rw [hc] at this
        simp [okOf] at this
    refine ⟨_, by rw [hfinal, settleAll_getElem?, hgetj]; rfl, ?_, ?_⟩
    · simp [hcall, gradeRecord]
    · simp [hcall, gradeRecord]

/-- Witness for C1: three pending records, the second call fails with
`Error("boom")`, the others succeed on the all-default response. -/
theorem c1_witness :
    (startGrading (readyState [pendingSub "a", pendingSub "b", pendingSub "c"]) failSecondEnv).1.submissions.length
        = (readyState [pendingSub "a", pendingSub "b", pendingSub "c"]).submissions.length
    ∧ (∃ rec, (startGrading (readyState [pendingSub "a", pendingSub "b", pendingSub "c"]) failSecondEnv).1.submissions[1]? = some rec
        ∧ rec.status = SubStatus.error ∧ rec.errorMsg = some "boom")
    ∧ (∀ j, j < (readyState [pendingSub "a", pendingSub "b", pendingSub "c"]).submissions.length → j ≠ 1 →
        ∃ rec, (startGrading (readyState [pendingSub "a", pendingSub "b", pendingSub "c"]) failSecondEnv).1.submissions[j]? = some rec
          ∧ rec.status = SubStatus.completed ∧ rec.result = some (normalizeResponse emptyRaw)) :=
  c1_single_failure_isolated (readyState [pendingSub "a", pendingSub "b", pendingSub "c"])
    failSecondEnv 1 "boom" (fun _ => normalizeResponse emptyRaw)
    (by decide) (by decide) (by decide) (by decide) (by decide)

/-! ## Helper lemmas: settled counts and the record invariant along a run -/

theorem settledB_gradeRecord (r : Submission) (out : Except Thrown GradingResult) :
    settledB (gradeRecord r out) = true := by
  cases out <;> rfl

theorem settledCount_append (l₁ l₂ : List Submission) :
    settledCount (l₁ ++ l₂) = settledCount l₁ + settledCount l₂ := by
  simp [settledCount, List.filter_append]

theorem settledCount_cons (x : Submission) (l : List Submission) :
    settledCount (x :: l) = (if settledB x then 1 else 0) + settledCount l := by
  by_cases h : settledB x <;> simp [settledCount, List.filter_cons, h] <;> omega

theorem settledCount_all_settled (l : List Submission) (h : ∀ r ∈ l, settledB r = true) :
    settledCount l = l.length := by
  induction l with
  | nil => rfl
  | cons x xs ih =>
    rw [settledCount_cons, h x (List.mem_cons_self x xs), ih (fun r hr => h r (List.mem_cons_of_mem x hr))]
    simp only [if_true, List.length_cons]
    omega

theorem settledCount_none (l : List Submission) (h : ∀ r ∈ l, settledB r = false) :
    settledCount l = 0 := by
  induction l with
  | nil => rfl
  | cons x xs ih =>
    rw [settledCount_cons, h x (List.mem_cons_self x xs), ih (fun r hr => h r (List.mem_cons_of_mem x hr))]
    simp

theorem settledB_pending (r : Submission) (h : r.status = SubStatus.pending) :
    settledB r = false := by
  simp [settledB, h]

theorem settleAll_settled (genv : Nat → GradeEnv) :
    ∀ rest k, ∀ r ∈ settleAll genv k rest, settledB r = true := by
  intro rest
  induction rest with
  | nil => intro k r hr; simp [settleAll] at hr
  | cons x xs ih =>
    intro k r hr
    rcases List.mem_cons.mp hr with hr | hr
    · subst hr; exact settledB_gradeRecord _ _
    · exact ih (k + 1) r hr

theorem spec_snapshot_lengths (genv : Nat → GradeEnv) :
    ∀ rest done k, ∀ snap ∈ (orchestratorSpec genv done rest k).2,
      snap.length = done.length + rest.length := by
  intro rest
  induction rest with
  | nil => intro done k snap hs; simp [orchestratorSpec] at hs
  | cons r rs ih =>
    intro done k snap hs
    simp only [orchestratorSpec] at hs
    rcases List.mem_cons.mp hs with hs | hs
    · subst hs; simp
    · rcases List.mem_cons.mp hs with hs | hs
      · subst hs; simp
      · have := ih (done ++ [gradeRecord { r with status := SubStatus.processing }
            (gradeSubmissionM (genv k))]) (k + 1) snap hs
        simp at this ⊢
        omega

theorem spec_counts_chain (genv : Nat → GradeEnv) :
    ∀ rest done k, (∀ r ∈ done, settledB r = true) →
      (∀ r ∈ rest, r.status = SubStatus.pending) →
      List.Chain (· ≤ ·) done.length
        (((orchestratorSpec genv done rest k).2).map settledCount) := by
  intro rest
  induction rest with
  | nil => intro done k hd hr; exact List.Chain.nil
  | cons r rs ih =>
    intro done k hd hr
    have hrs : ∀ x ∈ rs, settledB x = false := fun x hx =>
      settledB_pending x (hr x (List.mem_cons_of_mem r hx))
    have hproc : settledB { r with status := SubStatus.processing } = false := rfl
    have hc1 : settledCount (done
        ++ { r with status := SubStatus.processing } :: rs) = done.length := by
      rw [settledCount_append, settledCount_cons, hproc,
        settledCount_all_settled done hd, settledCount_none rs hrs]
      simp
    have hc2 : settledCount (done
        ++ gradeRecord { r with status := SubStatus.processing }
            (gradeSubmissionM (genv k)) :: rs) = done.length + 1 := by
      rw [settledCount_append, settledCount_cons, settledB_gradeRecord,
        settledCount_all_settled done hd, settledCount_none rs hrs]
      simp
    have htail := ih (done ++ [gradeRecord { r with status := SubStatus.processing }
        (gradeSubmissionM (genv k))]) (k + 1)
      (by
        intro x hx
        rcases List.mem_append.mp hx with hx | hx
        · exact hd x hx
        · rcases List.mem_cons.mp hx with hx | hx
          · subst hx; exact settledB_gradeRecord _ _
          · simp at hx)
      (fun x hx => hr x (List.mem_cons_of_mem r hx))
    simp only [List.length_append, List.length_cons, List.length_nil] at htail
    simp only [orchestratorSpec, List.map_cons, hc1, hc2]
    exact List.Chain.cons le_rfl (List.Chain.cons (by omega)
      (by simpa using htail))

theorem recordInvariant_of_fresh (r : Submission) (h : freshB r = true) :
    recordInvariant r = true := by
  simp only [freshB, Bool.and_eq_true, beq_iff_eq, Option.isNone_iff_eq_none] at h
  obtain ⟨⟨h1, h2⟩, h3⟩ := h
  simp [recordInvariant, h1, h2, h3]

theorem recordInvariant_parts (r : Submission) (h1 : r.status = SubStatus.pending)
    (h2 : r.result = none) (h3 : r.errorMsg = none) : recordInvariant r = true := by
  simp [recordInvariant, h1, h2, h3]

theorem gradeRecord_keeps_clean (r : Submission) (out : Except Thrown GradingResult)
    (h1 : r.result = none) (h2 : r.errorMsg = none) :
    recordInvariant (gradeRecord { r with status := SubStatus.processing } out) = true := by
  cases out with
  | ok res => simp [gradeRecord, recordInvariant, h2]
  | error e => simp [gradeRecord, recordInvariant, h1]

theorem freshB_fields (r : Submission) (h : freshB r = true) :
    r.status = SubStatus.pending ∧ r.result = none ∧ r.errorMsg = none := by
  simp only [freshB, Bool.and_eq_true, beq_iff_eq, Option.isNone_iff_eq_none] at h
  exact ⟨h.1.1, h.1.2, h.2⟩

theorem spec_snapshots_invariant (genv : Nat → GradeEnv) :
    ∀ rest done k, (∀ r ∈ done, recordInvariant r = true) →
      (∀ r ∈ rest, freshB r = true) →
      ∀ snap ∈ (orchestratorSpec genv done rest k).2, ∀ x ∈ snap, recordInvariant x = true := by
  intro rest
  induction rest with
  | nil => intro done k hd hr snap hs; simp [orchestratorSpec] at hs
  | cons r rs ih =>
    intro done k hd hr snap hs
    have hrf := freshB_fields r (hr r (List.mem_cons_self r rs))
    have hrsF : ∀ x ∈ rs, freshB x = true := fun x hx => hr x (List.mem_cons_of_mem r hx)
    simp only [orchestratorSpec] at hs
    rcases List.mem_cons.mp hs with hs | hs
    · subst hs
      intro x hx
      rcases List.mem_append.mp hx with hx | hx
      · exact hd x hx
      · rcases List.mem_cons.mp hx with hx | hx
        · subst hx
          simp [recordInvariant, hrf.2.1, hrf.2.2]
        · exact recordInvariant_of_fresh x (hrsF x hx)
    · rcases List.mem_cons.mp hs with hs | hs
      · subst hs
        intro x hx
        rcases List.mem_append.mp hx with hx | hx
        · exact hd x hx
        · rcases List.mem_cons.mp hx with hx | hx
          · subst hx
            exact gradeRecord_keeps_clean r _ hrf.2.1 hrf.2.2
          · exact recordInvariant_of_fresh x (hrsF x hx)
      · refine ih (done ++ [gradeRecord { r with status := SubStatus.processing }
            (gradeSubmissionM (genv k))]) (k + 1) ?_ hrsF snap hs
        intro x hx
        rcases List.mem_append.mp hx with hx | hx
        · exact hd x hx
        · rcases List.mem_cons.mp hx with hx | hx
          · subst hx; exact gradeRecord_keeps_clean r _ hrf.2.1 hrf.2.2
          · simp at hx

theorem settleAll_invariant (genv : Nat → GradeEnv) :
    ∀ rest k, (∀ r ∈ rest, freshB r = true) →
      ∀ x ∈ settleAll genv k rest, recordInvariant x = true := by
  intro rest
  induction rest with
  | nil => intro k hr x hx; simp [settleAll] at hx
  | cons r rs ih =>
    intro k hr x hx
    have hrf := freshB_fields r (hr r (List.mem_cons_self r rs))
    rcases List.mem_cons.mp hx with hx | hx
    · subst hx; exact gradeRecord_keeps_clean r _ hrf.2.1 hrf.2.2
    · exact ih (k + 1) (fun y hy => hr y (List.mem_cons_of_mem r hy)) x hx

theorem segmentLoopAux_pending (images : List String) (p : Nat) (mkId : Nat → String) :
    ∀ fuel i, ∀ r ∈ segmentLoopAux images p mkId fuel i,
      r.status = SubStatus.pending ∧ r.result = none ∧ r.errorMsg = none := by
  intro fuel
  induction fuel with
  | zero => intro i r hr; simp [segmentLoopAux] at hr
  | succ fuel ih =>
    intro i r hr
    simp only [segmentLoopAux] at hr
    by_cases hi : i < images.length
    · rw [if_pos hi] at hr
      by_cases hc : ((images.drop i).take p).length > 0
      · rw [if_pos hc] at hr
        rcases List.mem_cons.mp hr with hr | hr
        · subst hr; exact ⟨rfl, rfl, rfl⟩
        · exact ih (i + p) r hr
      · rw [if_neg hc] at hr
        exact ih (i + p) r hr
    · rw [if_neg hi] at hr
      simp at hr

/-! ## Claim theorems: progress ratio (C8) -/

/-- Counterexample to claim C8 as stated: a run may start over a queue that
already holds settled records — the app itself reaches one by finishing a
run, removing the reference file and selecting a new one (`twoRegradeState`
is reachable) — and the published settled-counts of the second run are
`[1, 2, 1, 2]`: not monotone, because the `processing` transition un-settles
an already-settled record. -/
theorem c8_claim_counterexample :
    Reach false twoRegradeState
    ∧ ¬ List.Chain' (· ≤ ·)
        (((startGrading twoRegradeState allOkEnv).2).map settledCount) := by
  constructor
  · have h1 : Reach false (selectReference initialState "r1") :=
      Reach.selectRef Reach.init
    have h2 : Reach false (gotoUpload (selectReference initialState "r1")) :=
      Reach.next h1 (by decide)
    have h3 : Reach false (stageFiles (gotoUpload (selectReference initialState "r1")) ["f1"]) :=
      Reach.stage h2
    have h4 : Reach false oneQueuedState := Reach.addStudent h3
    have h5 : Reach false (stageFiles oneQueuedState ["f2"]) := Reach.stage h4
    have h6 : Reach false twoQueuedState := Reach.addStudent h5
    have h7 : Reach false twoGradedState :=
      Reach.grade h6 (fun hb => nomatch hb)
        (show twoGradedState ∈ startGradingStates twoQueuedState allOkEnv by decide)
    have h8 : Reach false (removeReference twoGradedState) := Reach.removeRef h7
    have h9 : Reach false (selectReference (removeReference twoGradedState) "r2") :=
      Reach.selectRef h8
    exact Reach.next h9 (by decide)
  · have hmap : ((startGrading twoRegradeState allOkEnv).2).map settledCount
        = [1, 2, 1, 2] := by decide
    rw [hmap]
    simp [List.chain'_cons]

/-- Claim C8 (amended): over a queue of *pending* records — the form every
first run takes — the published snapshots all have the queue's fixed size
(so the displayed ratio is the settled-count formula over a fixed total),
the settled count never decreases from one snapshot to the next, and when
`startGrading` finishes every record is settled, so the ratio is exactly 1.
The amendment restricts the monotonicity to runs from pending queues: re-runs
over already-settled records (see the counterexample) dip the count. -/
theorem c8_progress_monotone_pending_queue (s : AppState) (genv : Nat → GradeEnv)
    (href : s.referenceFile.isSome = true)
    (hsub : s.submissions ≠ [])
    (hfresh : ∀ r ∈ s.submissions, r.status = SubStatus.pending) :
    List.Chain' (· ≤ ·) (((startGrading s genv).2).map settledCount)
    ∧ (∀ snap ∈ (startGrading s genv).2, snap.length = s.submissions.length)
    ∧ settledCount (startGrading s genv).1.submissions = s.submissions.length
    ∧ progressRatio (startGrading s genv).1.submissions = 1 := by
  have htr := startGrading_trace s genv href hsub
  have hfin := startGrading_final_submissions s genv href hsub
  have hcnt : settledCount (startGrading s genv).1.submissions = s.submissions.length := by
    rw [hfin, settledCount_all_settled _ (settleAll_settled genv s.submissions 0),
      settleAll_length]
  refine ⟨?_, ?_, hcnt, ?_⟩
  · rw [htr]
    have hchain := spec_counts_chain genv s.submissions [] 0 (by simp) hfresh
    simp only [List.length_nil] at hchain
    cases hmap : ((orchestratorSpec genv [] s.submissions 0).2).map settledCount with
    | nil => exact trivial
    | cons a t =>
      rw [hmap] at hchain
      exact (List.chain_cons.mp hchain).2
  · intro snap hsnap
    rw [htr] at hsnap
    have := spec_snapshot_lengths genv s.submissions [] 0 snap hsnap
    simpa using this
  · have hlen : (startGrading s genv).1.submissions.length = s.submissions.length := by
      rw [hfin, settleAll_length]
    have hne : s.submissions.length ≠ 0 := by
      cases h' : s.submissions with
      | nil => exact absurd h' hsub
      | cons x xs => simp
    rw [progressRatio, hcnt, hlen]
    exact div_self (Nat.cast_ne_zero.mpr hne)

/-- Witness for the amended C8: a fresh two-record queue. -/
theorem c8_witness :
    List.Chain' (· ≤ ·)
      (((startGrading (readyState [pendingSub "a", pendingSub "b"]) allOkEnv).2).map settledCount)
    ∧ (∀ snap ∈ (startGrading (readyState [pendingSub "a", pendingSub "b"]) allOkEnv).2,
        snap.length = (readyState [pendingSub "a", pendingSub "b"]).submissions.length)
    ∧ settledCount (startGrading (readyState [pendingSub "a", pendingSub "b"]) allOkEnv).1.submissions
        = (readyState [pendingSub "a", pendingSub "b"]).submissions.length
    ∧ progressRatio (startGrading (readyState [pendingSub "a", pendingSub "b"]) allOkEnv).1.submissions = 1 :=
  c8_progress_monotone_pending_queue (readyState [pendingSub "a", pendingSub "b"]) allOkEnv
    (by decide) (by decide) (by decide)

/-! ## Claim theorems: the record invariant (C5) -/

theorem reach_invariant_aux {b : Bool} {s : AppState} (h : Reach b s) :
    b = true → stateInvariant s = true := by
  induction h with
  | init => intro _; rfl
  | selectRef h ih =>
    intro hb
    simpa [stateInvariant, selectReference] using ih hb
  | removeRef h ih =>
    intro hb
    simpa [stateInvariant, removeReference] using ih hb
  | next h href ih =>
    intro hb
    simpa [stateInvariant, gotoUpload] using ih hb
  | stage h ih =>
    intro hb
    simpa [stateInvariant, stageFiles] using ih hb
  | addStudent h ih =>
    intro hb
    have ihb := ih hb
    simp only [stateInvariant] at ihb ⊢
    simp only [addStudentToQueue]
    split
    · exact ihb
    · simp only [List.all_append, ihb, Bool.true_and, List.all_cons, List.all_nil,
        Bool.and_true]
      rfl
  | bulkAdd h ih =>
    intro hb
    have ihb := ih hb
    simp only [stateInvariant] at ihb ⊢
    simp only [bulkAddSubmissions, List.all_append, ihb, Bool.true_and]
    refine List.all_eq_true.mpr (fun r hr => ?_)
    obtain ⟨h1, h2, h3⟩ := segmentLoopAux_pending _ _ _ _ _ r hr
    exact recordInvariant_parts r h1 h2 h3
  | removeSub h ih =>
    intro hb
    have ihb := ih hb
    simp only [stateInvariant] at ihb ⊢
    simp only [removeSubmissionById]
    refine List.all_eq_true.mpr (fun r hr => ?_)
    exact List.all_eq_true.mp ihb r (List.mem_filter.mp hr).1
  | edit h hid ih =>
    rename_i s0 i0 n0 c0
    intro hb
    have ihb := ih hb
    simp only [stateInvariant] at ihb ⊢
    rw [saveEdit]
    split
    · exact ihb
    · split
      · exact ihb
      · refine List.all_eq_true.mpr (fun su' hsu' => ?_)
        simp only [List.mem_map] at hsu'
        obtain ⟨su, hsu, hmap⟩ := hsu'
        subst hmap
        by_cases hidm : (su.id == i0) = true
        · rw [if_pos hidm]
          have hsome := hid su hsu (by simpa using hidm)
          have hinv := List.all_eq_true.mp ihb su hsu
          cases hru : su.result with
          | none => rw [hru] at hsome; simp at hsome
          | some rr =>
            cases hst : su.status with
            | pending => simp [recordInvariant, hst, hru] at hinv
            | processing => simp [recordInvariant, hst, hru] at hinv
            | error => simp [recordInvariant, hst, hru] at hinv
            | completed =>
              simp only [recordInvariant, hst, hru, Option.isSome_some,
                Bool.true_and] at hinv
              simp [recordInvariant, hst, hinv]
        · rw [if_neg hidm]
          exact List.all_eq_true.mp ihb su hsu
  | pages h ih =>
    intro hb
    simpa [stateInvariant, setPages] using ih hb
  | reset h ih =>
    intro hb
    simp [stateInvariant, resetRun]
  | grade h hfreshQ hmem ih =>
    rename_i s0 s1 genv0
    intro hb
    have hfr := hfreshQ hb
    by_cases hguard : (s0.referenceFile.isNone || s0.submissions.isEmpty) = true
    case pos =>
      rw [startGradingStates, if_pos hguard] at hmem
      simp at hmem
    case neg =>
      rw [startGradingStates, if_neg hguard] at hmem
      have hfreshAll : ∀ r ∈ s0.submissions, freshB r = true := List.all_eq_true.mp hfr
      rcases List.mem_cons.mp hmem with hmem | hmem
      · subst hmem
        simp only [stateInvariant]
        exact List.all_eq_true.mpr
          (fun r hr => recordInvariant_of_fresh r (hfreshAll r hr))
      · rcases List.mem_append.mp hmem with hmem | hmem
        · simp only [List.mem_map] at hmem
          obtain ⟨snap, hsnap, hmid⟩ := hmem
          subst hmid
          simp only [stateInvariant, midState]
          rw [gradingLoop_eq_spec] at hsnap
          exact List.all_eq_true.mpr
            (spec_snapshots_invariant _ _ [] 0 (by simp) hfreshAll snap hsnap)
        · simp only [List.mem_singleton] at hmem
          subst hmem
          simp only [stateInvariant]
          rw [gradingLoop_eq_spec, orchestratorSpec_fst]
          exact List.all_eq_true.mpr
            (fun r hr => settleAll_invariant _ _ 0 hfreshAll r (by simpa using hr))

/-- Counterexample to claim C5 as stated: the invariant-violating state
`c5badState` is reachable — finish a run (record `completed` with a result),
remove and re-select the reference file, start grading again: the first
published snapshot of the second run holds the record with
`status = processing` while its old `result` is still present, because the
spread in `startGrading` keeps stale fields. -/
theorem c5_claim_counterexample :
    Reach false c5badState ∧ stateInvariant c5badState = false := by
  constructor
  · have h1 : Reach false (selectReference initialState "r1") :=
      Reach.selectRef Reach.init
    have h2 : Reach false (gotoUpload (selectReference initialState "r1")) :=
      Reach.next h1 (by decide)
    have h3 : Reach false (stageFiles (gotoUpload (selectReference initialState "r1")) ["f1"]) :=
      Reach.stage h2
    have h4 : Reach false oneQueuedState := Reach.addStudent h3
    have h5 : Reach false oneGradedState :=
      Reach.grade h4 (fun hb => nomatch hb)
        (show oneGradedState ∈ startGradingStates oneQueuedState allOkEnv by decide)
    have h6 : Reach false (removeReference oneGradedState) := Reach.removeRef h5
    have h7 : Reach false (selectReference (removeReference oneGradedState) "r2") :=
      Reach.selectRef h6
    have h8 : Reach false oneRegradeState := Reach.next h7 (by decide)
    exact Reach.grade h8 (fun hb => nomatch hb)
      (show c5badState ∈ startGradingStates oneRegradeState allOkEnv by decide)
  · decide

/-- Claim C5 (amended): the per-record invariant — `result` present exactly
on `completed`, `errorMsg` present exactly on `error`, both absent on
`pending`/`processing` — holds in every state reachable when each grading
run starts from a queue of freshly created records (the first run over any
queue; `Reach true` also covers creation, bulk segmentation, user edits,
removal and resets).  The amendment excludes re-running `startGrading` over
an already-graded queue, where the status spread keeps stale fields (see the
counterexample). -/
theorem c5_invariant_fresh_runs (s : AppState) (h : Reach true s) :
    stateInvariant s = true :=
  reach_invariant_aux h rfl

/-- Witness for the amended C5: the initial state is reachable and satisfies
the invariant. -/
theorem c5_witness : stateInvariant initialState = true :=
  c5_invariant_fresh_runs initialState Reach.init

/-! ## Helper lemmas for the export columns -/

theorem jsSetToList_mem_aux (l : List Int) :
    ∀ acc x, (x ∈ l.foldl (fun acc x => if x ∈ acc then acc else acc ++ [x]) acc)
      ↔ (x ∈ acc ∨ x ∈ l) := by
  induction l with
  | nil => intro acc x; simp
  | cons y ys ih =>
    intro acc x
    simp only [List.foldl_cons]
    rw [ih]
    by_cases hy : y ∈ acc
    · simp only [if_pos hy, List.mem_cons]
      constructor
      · rintro (hx | hx)
        · exact Or.inl hx
        · exact Or.inr (Or.inr hx)
      · rintro (hx | hx | hx)
        · exact Or.inl hx
        · exact Or.inl (hx ▸ hy)
        · exact Or.inr hx
    · simp only [if_neg hy, List.mem_append, List.mem_singleton, List.mem_cons]
      tauto
theorem jsSetToList_mem (l : List Int) (x : Int) : x ∈ jsSetToList l ↔ x ∈ l := by
  rw [jsSetToList, jsSetToList_mem_aux]
  simp

theorem jsSetToList_nodup_aux (l : List Int) :
    ∀ acc, acc.Nodup → (l.foldl (fun acc x => if x ∈ acc then acc else acc ++ [x]) acc).Nodup := by
  induction l with
  | nil => intro acc h; exact h
  | cons y ys ih =>
    intro acc h
    simp only [List.foldl_cons]
    by_cases hy : y ∈ acc
    · rw [if_pos hy]; exact ih acc h
    · rw [if_neg hy]
      refine ih (acc ++ [y]) ?_
      exact (List.perm_append_singleton y acc).nodup_iff.mpr (List.nodup_cons.mpr ⟨hy, h⟩)

theorem jsSetToList_nodup (l : List Int) : (jsSetToList l).Nodup :=
  jsSetToList_nodup_aux l [] List.nodup_nil

theorem exportQNums_sorted_strict (subs : List Submission) :
    List.Sorted (· < ·) (exportQNums subs) := by
  have hs : List.Sorted (· ≤ ·) (exportQNums subs) :=
    List.sorted_insertionSort _ _
  have hn : (exportQNums subs).Nodup :=
    (List.perm_insertionSort _ _).nodup_iff.mpr (jsSetToList_nodup _)
  exact (List.Pairwise.and hs hn).imp (fun h => lt_of_le_of_ne h.1 h.2)

theorem exportQNums_mem (subs : List Submission) (q : Int) :
    q ∈ exportQNums subs ↔ q ∈ observedQNums subs := by
  rw [exportQNums, (List.perm_insertionSort (· ≤ ·) (jsSetToList (observedQNums subs))).mem_iff]
  exact jsSetToList_mem _ q

theorem qColsFor_length (qs : List Int) (scores : List ScoreItem) :
    (qColsFor qs scores).length = 2 * qs.length := by
  induction qs with
  | nil => rfl
  | cons q qs ih =>
    simp only [qColsFor, List.flatMap_cons, List.length_append, List.length_cons] at ih ⊢
    cases h : jsMapLookup scores q <;>
      simp only [h, List.length_cons, List.length_nil] <;> omega

theorem headerPairs_length (qs : List Int) :
    (qs.flatMap (fun q => ["Q" ++ toString q ++ " Ans", "Q" ++ toString q ++ " Score"])).length
      = 2 * qs.length := by
  induction qs with
  | nil => rfl
  | cons q qs ih => simp [List.flatMap_cons, ih]; omega

/-! ## Claim theorem: export columns (C9) -/

/-- Claim C9: both the CSV export and the tab-separated clipboard copy lay
out exactly one answer column and one score column per distinct question
number observed across all completed records' scores (duplicates collapsed
by the `Set`), and the per-question pairs appear in strictly ascending
numeric order; every data row has the same cell count as the header. -/
theorem c9_export_question_columns (subs : List Submission) :
    List.Sorted (· < ·) (exportQNums subs)
    ∧ (∀ q, q ∈ exportQNums subs ↔ q ∈ observedQNums subs)
    ∧ clipboardQNums subs = exportQNums subs
    ∧ exportHeaderCells subs
        = ["Class", "Name", "Total Score"]
          ++ (exportQNums subs).flatMap
              (fun q => ["Q" ++ toString q ++ " Ans", "Q" ++ toString q ++ " Score"])
          ++ ["Feedback"]
    ∧ clipboardHeaderCells subs
        = ["Class", "Name", "Total Score"]
          ++ (exportQNums subs).flatMap
              (fun q => ["Q" ++ toString q ++ " Ans", "Q" ++ toString q ++ " Score"])
          ++ ["Feedback"]
    ∧ (∀ res : GradingResult,
        (exportRowCells (exportQNums subs) res).length = (exportHeaderCells subs).length
          ∧ (clipboardRowCells (clipboardQNums subs) res).length
              = (clipboardHeaderCells subs).length) := by
  refine ⟨exportQNums_sorted_strict subs, exportQNums_mem subs, rfl, rfl, rfl, ?_⟩
  intro res
  constructor
  · simp only [exportRowCells, exportHeaderCells, List.length_append, List.length_cons,
      List.length_nil, qColsFor_length, headerPairs_length]
  · simp only [clipboardRowCells, clipboardHeaderCells, List.length_append, List.length_cons,
      List.length_nil, qColsFor_length, headerPairs_length]
